import Mathlib

/-!
# Verification of the cone-counter server's date logic, data operations and routes

This development shallowly embeds the server of the cone-counter repository:
the Firestore-backed `Database` class (`src/database.ts`) and the Express
request handlers (`src/index.ts`).

Modelling conventions:

* An instant (a JavaScript `Date`, or an ISO-8601 `timestamp` string, which
  serializes an instant bijectively) is modelled by its epoch-millisecond
  value `ms : Int`.  A possibly-invalid `Date` (the result of `new Date(x)`
  for arbitrary `x`) is an `Option Int`, `none` being an Invalid Date.
* The ambient local timezone of the Node process is modelled as a fixed
  UTC offset `off : Int` in minutes; a local clock reading is
  `ms + off * 60000`.  JavaScript's local accessors `getFullYear`,
  `getMonth`, `getDate`, `getHours`, `getMinutes`, `getSeconds`, `getDay`
  are modelled by the civil-calendar decomposition of that shifted value,
  per the ECMA-262 `YearFromTime` / `MonthFromTime` / `DateFromTime` /
  `HourFromTime` / `WeekDay` definitions (proleptic Gregorian calendar over
  floored division).  All divisors are positive, so `Int`'s `/` and `%`
  (Euclidean) coincide with the floored division ECMA-262 specifies.
* A stored `date` string `YYYY-MM-DD` is modelled by its year/month/day
  triple `Ymd`; zero-padded decimal rendering is an order isomorphism
  between such triples (for four-digit years) and their strings under the
  lexicographic string order Firestore uses, so Firestore's `==` / `>=` on
  the `date` field are modelled by equality and `Ymd.leB` on triples.
  A stored `time` string `HH:MM:SS` is likewise an `Hms` triple.
* Firestore document ids are modelled by a per-store counter `nextId`;
  `collection.add` / `doc()` draw fresh ids from it.
-/

/-- A calendar date: the `YYYY-MM-DD` string of the repository, represented
    by its numeric components. -/
structure Ymd where
  y : Int
  m : Int
  d : Int
deriving DecidableEq, Repr

/-- A time of day: the `HH:MM:SS` string of the repository, represented by
    its numeric components. -/
structure Hms where
  h : Int
  mi : Int
  s : Int
deriving DecidableEq, Repr

/-- 400-year Gregorian era containing a day (days counted from 1970-01-01,
    eras from 0000-03-01). -/
def eraOf (z : Int) : Int := (z + 719468) / 146097

/-- Day within the 400-year era, in `[0, 146096]`. -/
def doeOf (z : Int) : Int := (z + 719468) - eraOf z * 146097

/-- Century within the era, in `[0, 3]`. -/
def centOf (n : Int) : Int := (4 * n + 3) / 146097

/-- Day within the century, in `[0, 36524]`. -/
def docOf (n : Int) : Int := (4 * n + 3) % 146097 / 4

/-- Year within the century, in `[0, 99]`. -/
def yocOf (nc : Int) : Int := (4 * nc + 3) / 1461

/-- Day within the (March-based) year, in `[0, 365]`. -/
def doyOf (nc : Int) : Int := (4 * nc + 3) % 1461 / 4

/-- March-based month index, in `[0, 11]` (`0` = March). -/
def mpOf (doy : Int) : Int := (5 * doy + 2) / 153

/-- Civil (proleptic Gregorian) calendar date of a day counted from
    1970-01-01 — the calendar decomposition ECMA-262 prescribes for
    `Date`'s `getFullYear` / `getMonth` / `getDate`. -/
def civilFromDays (z : Int) : Ymd :=
  let era := eraOf z
  let doe := doeOf z
  let c := centOf doe
  let nc := docOf doe
  let w := yocOf nc
  let doy := doyOf nc
  let mp := mpOf doy
  let m := mp + (if mp < 10 then 3 else -9)
  ⟨100 * c + w + era * 400 + (if m ≤ 2 then 1 else 0), m, doy - (153 * mp + 2) / 5 + 1⟩

/-- Days since 1970-01-01 of a civil date (the inverse decomposition,
    used to state and certify correctness of `civilFromDays`, and to model
    `new Date('YYYY-MM-DD')`, which ECMA-262 parses as UTC midnight). -/
def daysFromCivil (c : Ymd) : Int :=
  let y := c.y - (if c.m ≤ 2 then 1 else 0)
  let era := y / 400
  let yoe := y - era * 400
  let doy := (153 * (c.m + (if c.m > 2 then -3 else 9)) + 2) / 5 + c.d - 1
  let doe := yoe * 365 + yoe / 4 - yoe / 100 + doy
  era * 146097 + doe - 719468

/-- Strict lexicographic order on calendar dates — the order the
    `YYYY-MM-DD` strings carry under Firestore's string comparison. -/
def Ymd.lexLt : Ymd → Ymd → Prop
  | ⟨y1, m1, d1⟩, ⟨y2, m2, d2⟩ =>
    y1 < y2 ∨ (y1 = y2 ∧ (m1 < m2 ∨ (m1 = m2 ∧ d1 < d2)))

/-- Lexicographic order on calendar dates (inclusive). -/
def Ymd.lexLe : Ymd → Ymd → Prop
  | ⟨y1, m1, d1⟩, ⟨y2, m2, d2⟩ =>
    y1 < y2 ∨ (y1 = y2 ∧ (m1 < m2 ∨ (m1 = m2 ∧ d1 ≤ d2)))

instance (a b : Ymd) : Decidable (Ymd.lexLe a b) :=
  match a, b with
  | ⟨y1, m1, d1⟩, ⟨y2, m2, d2⟩ =>
    inferInstanceAs (Decidable (y1 < y2 ∨ (y1 = y2 ∧ (m1 < m2 ∨ (m1 = m2 ∧ d1 ≤ d2)))))

instance (a b : Ymd) : Decidable (Ymd.lexLt a b) :=
  match a, b with
  | ⟨y1, m1, d1⟩, ⟨y2, m2, d2⟩ =>
    inferInstanceAs (Decidable (y1 < y2 ∨ (y1 = y2 ∧ (m1 < m2 ∨ (m1 = m2 ∧ d1 < d2)))))

/-- Boolean form of `Ymd.lexLe`: Firestore's `'date' >= x` comparison. -/
def Ymd.leB (a b : Ymd) : Bool := decide (Ymd.lexLe a b)

/-- Milliseconds on the local clock: `LocalTime(t)` of ECMA-262 with a fixed
    offset of `off` minutes. -/
def localMs (off ms : Int) : Int := ms + off * 60000

/-- The local calendar day number (days since epoch) of an instant:
    ECMA-262 `Day(LocalTime(t))`. -/
def jsLocalDay (off ms : Int) : Int := localMs off ms / 86400000

/-- `d.getFullYear() / d.getMonth() + 1 / d.getDate()` of an instant,
    as the local calendar date triple. -/
def jsLocalYmd (off ms : Int) : Ymd := civilFromDays (jsLocalDay off ms)

/-- The UTC calendar day number of an instant: ECMA-262 `Day(t)`. -/
def utcDay (ms : Int) : Int := ms / 86400000

/-- The UTC calendar date of an instant (what slicing `toISOString()`
    would yield). -/
def utcYmd (ms : Int) : Ymd := civilFromDays (utcDay ms)

/-- Milliseconds elapsed since local midnight: ECMA-262
    `msFromTime`-style remainder of the local clock. -/
def msOfLocalDay (off ms : Int) : Int := localMs off ms % 86400000

/-- `d.getHours()` (local). -/
def jsGetHours (off ms : Int) : Int := msOfLocalDay off ms / 3600000

/-- `d.getMinutes()` (local). -/
def jsGetMinutes (off ms : Int) : Int := localMs off ms % 3600000 / 60000

/-- `d.getSeconds()` (local). -/
def jsGetSeconds (off ms : Int) : Int := localMs off ms % 60000 / 1000

/-- `d.getHours()/getMinutes()/getSeconds()` bundled as the `HH:MM:SS`
    triple the repository's `pad2`-built time strings represent. -/
def jsLocalHms (off ms : Int) : Hms :=
  ⟨jsGetHours off ms, jsGetMinutes off ms, jsGetSeconds off ms⟩

/-- `d.getDay()` (local): `0` = Sunday … `6` = Saturday; 1970-01-01 was a
    Thursday (`4`). -/
def jsGetDay (off ms : Int) : Int := (jsLocalDay off ms + 4) % 7

/-- The `days` array both `formatDateTime` (index.ts) and
    `normalizeDateFields` (database.ts) index with `d.getDay()`. -/
def days : List String :=
  ["Sunday", "Monday", "Tuesday", "Wednesday", "Thursday", "Friday", "Saturday"]

/-- `days[d.getDay()]`. -/
def jsDayName (off ms : Int) : String := days.getD (jsGetDay off ms).toNat ""

/-! ## Data model (`src/types.ts` and the Firestore documents) -/

/-- A stored `cones` document: the persisted fields plus the owning
    principal's `userId`. -/
structure StoredCone where
  id : Nat
  userId : String
  timestamp : Int
  date : Ymd
  time : Hms
  dayOfWeek : String
  notes : String
  createdAt : Int
  updatedAt : Int
deriving DecidableEq, Repr

/-- The `Cone` view returned to callers (`src/types.ts`): the document
    fields without `userId`. -/
structure Cone where
  id : Nat
  timestamp : Int
  date : Ymd
  time : Hms
  dayOfWeek : String
  notes : String
  createdAt : Int
  updatedAt : Int
deriving DecidableEq, Repr

/-- Projection of a stored document to the `Cone` view, as built by
    `getCone` / `getAllCones`. -/
def StoredCone.view (c : StoredCone) : Cone :=
  ⟨c.id, c.timestamp, c.date, c.time, c.dayOfWeek, c.notes, c.createdAt, c.updatedAt⟩

/-- The Firestore `cones` collection, with the id counter modelling
    Firestore's fresh document-id generation. -/
structure Store where
  cones : List StoredCone
  nextId : Nat
deriving DecidableEq, Repr

/-- Store sanity: ids are below the fresh-id counter and pairwise distinct
    (Firestore guarantees unique document ids). -/
def Store.WF (s : Store) : Prop :=
  (∀ c ∈ s.cones, c.id < s.nextId) ∧ s.cones.Pairwise (fun a b => a.id ≠ b.id)

/-- `ConeStats` (`src/types.ts`); the `number` averages (floats) are
    modelled as rationals — exact for the claims below, which only involve
    the zero branch and integer divisors. -/
structure ConeStats where
  total : Nat
  today : Nat
  thisWeek : Nat
  thisMonth : Nat
  averagePerDay : ℚ
  averagePerWeek : ℚ
  averagePerMonth : ℚ
deriving DecidableEq, Repr

/-- `TimeAnalysis` (`src/types.ts`): the three sparse histogram objects,
    each modelled as the association list of present keys in insertion
    order. -/
structure TimeAnalysis where
  hourOfDay : List (Int × Nat)
  dayOfWeek : List (String × Nat)
  monthOfYear : List (Int × Nat)
deriving DecidableEq, Repr

/-- `ExportData` (`src/types.ts`). -/
structure ExportData where
  cones : List Cone
  exportDate : Int
  version : String
deriving DecidableEq, Repr

/-- `ImportResult` (`src/types.ts`). -/
structure ImportResult where
  success : Bool
  message : String
  importedCount : Option Nat
deriving DecidableEq, Repr

/-! ## The Local-Field Deriver -/

/-- The fields produced by `formatDateTime` (index.ts): the ISO timestamp
    (modelled by its instant), the local date and time (modelled by their
    component triples) and the weekday name. -/
structure FormattedDateTime where
  timestamp : Int
  date : Ymd
  time : Hms
  dayOfWeek : String
deriving DecidableEq, Repr

/-- `formatDateTime(date)` (index.ts).  Its first statement
    `date.toISOString()` throws a `RangeError` on an Invalid Date — the
    spec's `InvalidInstant` condition — modelled by `none`; on a valid
    instant it builds the local date string from `getFullYear/getMonth/getDate`
    (never from the UTC ISO string), the local time string from
    `getHours/getMinutes/getSeconds`, and `days[getDay()]`. -/
def formatDateTime (off : Int) : Option Int → Option FormattedDateTime
  | none => none
  | some ms => some ⟨ms, jsLocalYmd off ms, jsLocalHms off ms, jsDayName off ms⟩

/-- The local fields recomputed by `normalizeDateFields`'s inner
    `computeFromTimestamp` (database.ts): same derivation as
    `formatDateTime`, from a stored (valid) timestamp. -/
structure LocalFields where
  date : Ymd
  time : Hms
  dayOfWeek : String
deriving DecidableEq, Repr

/-- `computeFromTimestamp(iso)` (database.ts lines 42-48). -/
def computeFromTimestamp (off ts : Int) : LocalFields :=
  ⟨jsLocalYmd off ts, jsLocalHms off ts, jsDayName off ts⟩

/-! ## Database operations (`src/database.ts`) -/

/-- Does a stored cone differ from its recomputed local fields?  The
    comparison `calc.date !== data.date || calc.time !== data.time ||
    calc.dayOfWeek !== data.dayOfWeek` of `normalizeDateFields`. -/
def normalizeNeeded (off : Int) (c : StoredCone) : Bool :=
  let calcd := computeFromTimestamp off c.timestamp
  calcd.date != c.date || calcd.time != c.time || calcd.dayOfWeek != c.dayOfWeek

/-- The batched update `normalizeDateFields` stages for one document when
    its fields differ. -/
def normalizeApply (off nowMs : Int) (uid : String) (c : StoredCone) : StoredCone :=
  if c.userId == uid && normalizeNeeded off c then
    let calcd := computeFromTimestamp off c.timestamp
    { c with date := calcd.date, time := calcd.time, dayOfWeek := calcd.dayOfWeek,
             updatedAt := nowMs }
  else c

/-- `normalizeDateFields(userId)` (database.ts lines 38-77): recompute the
    derived fields of every cone of `uid` from its timestamp, stage an
    update for each row whose stored fields differ, commit the batch, and
    return the number of rows updated. -/
def normalizeDateFields (off nowMs : Int) (s : Store) (uid : String) : Nat × Store :=
  ((s.cones.filter (fun c => c.userId == uid && normalizeNeeded off c)).length,
   { s with cones := s.cones.map (normalizeApply off nowMs uid) })

/-- `addCone(userId, cone)` (database.ts lines 79-86): `conesRef.add`
    persists the fields with the owner's `userId` under a fresh document
    id, which is returned. -/
def addCone (s : Store) (uid : String) (c : Cone) : Nat × Store :=
  (s.nextId,
   { cones := s.cones ++
       [⟨s.nextId, uid, c.timestamp, c.date, c.time, c.dayOfWeek, c.notes,
         c.createdAt, c.updatedAt⟩],
     nextId := s.nextId + 1 })

/-- `getCone(userId, id)` (database.ts lines 119-138): `null` when the
    document does not exist, `null` when it exists but `userId` differs,
    the `Cone` view otherwise. -/
def getCone (s : Store) (uid : String) (id : Nat) : Option Cone :=
  match s.cones.find? (fun c => c.id == id) with
  | none => none
  | some c => if c.userId ≠ uid then none else some c.view

/-- A `Partial<Cone>` update object: absent fields are `none` (JavaScript
    `undefined` fields are absent from the object spread). -/
structure ConeUpdate where
  timestamp : Option Int
  date : Option Ymd
  time : Option Hms
  dayOfWeek : Option String
  notes : Option String
deriving DecidableEq, Repr

/-- The effect of `coneRef.update({...updates, updatedAt})` on the stored
    document. -/
def applyUpdate (nowMs : Int) (u : ConeUpdate) (c : StoredCone) : StoredCone :=
  { c with timestamp := u.timestamp.getD c.timestamp,
           date := u.date.getD c.date,
           time := u.time.getD c.time,
           dayOfWeek := u.dayOfWeek.getD c.dayOfWeek,
           notes := u.notes.getD c.notes,
           updatedAt := nowMs }

/-- `updateCone(userId, id, updates)` (database.ts lines 88-104): `false`
    when the document does not exist or is owned by someone else (nothing
    written), otherwise applies the update and returns `true`. -/
def updateCone (nowMs : Int) (s : Store) (uid : String) (id : Nat)
    (u : ConeUpdate) : Bool × Store :=
  match s.cones.find? (fun c => c.id == id) with
  | none => (false, s)
  | some c =>
    if c.userId ≠ uid then (false, s)
    else
      let newCones := s.cones.map (fun e => if e.id == id then applyUpdate nowMs u e else e)
      (true, { s with cones := newCones })

/-- `deleteCone(userId, id)` (database.ts lines 106-117): `false` when the
    document does not exist or is owned by someone else (nothing deleted),
    otherwise deletes it and returns `true`. -/
def deleteCone (s : Store) (uid : String) (id : Nat) : Bool × Store :=
  match s.cones.find? (fun c => c.id == id) with
  | none => (false, s)
  | some c =>
    if c.userId ≠ uid then (false, s)
    else (true, { s with cones := s.cones.filter (fun e => !(e.id == id)) })

/-- `getAllCones(userId)` (database.ts lines 140-184): the user's cones,
    newest timestamp first (`orderBy('timestamp', 'desc')`; the in-memory
    fallback sorts identically). -/
def getAllCones (s : Store) (uid : String) : List Cone :=
  ((s.cones.filter (fun c => c.userId == uid)).map StoredCone.view).mergeSort
    (fun a b => decide (b.timestamp ≤ a.timestamp))

/-- `getMinDate(userId)` (database.ts lines 241-275): the least stored
    `date` of the user's cones (`orderBy('date','asc').limit(1)`; the
    fallback scans with `data.date < minDate`). -/
def getMinDate (s : Store) (uid : String) : Option Ymd :=
  (s.cones.filter (fun c => c.userId == uid)).foldl
    (fun minDate c =>
      match minDate with
      | none => some c.date
      | some m => if Ymd.lexLt c.date m then some c.date else minDate)
    none

/-- `getCount('userId','==',uid,'date','==',d)`: today's count in
    `getStats`. -/
def countDateEq (s : Store) (uid : String) (d : Ymd) : Nat :=
  (s.cones.filter (fun c => c.userId == uid && c.date == d)).length

/-- `getCount('userId','==',uid,'date','>=',d)`: the week / month counts
    in `getStats`. -/
def countDateGe (s : Store) (uid : String) (d : Ymd) : Nat :=
  (s.cones.filter (fun c => c.userId == uid && Ymd.leB d c.date)).length

/-- The week start computed by `getStats` (database.ts lines 283-288):
    local midnight `weekday` days before today, where
    `weekday = (now.getDay() + 6) % 7` (Monday = 0), as a day number. -/
def weekStartDay (off nowMs : Int) : Int :=
  jsLocalDay off nowMs - (jsGetDay off nowMs + 6) % 7

/-- Ceiling division by a positive constant: `Math.ceil(a / b)` on the
    integer-valued millisecond differences of `getStats` (exact; the claims
    below never leave the zero-events branch where float rounding of the
    quotient could matter). -/
def ceilDiv (a b : Int) : Int := -(-a / b)

/-- The `daysDiff` divisor of `getStats` (line 308): `minDateStr` is parsed
    by `new Date('YYYY-MM-DD')` as UTC midnight. -/
def statsDaysDiff (nowMs : Int) (minDate : Ymd) : Int :=
  max 1 (ceilDiv (nowMs - daysFromCivil minDate * 86400000) 86400000)

/-- The `weeksDiff` divisor of `getStats` (line 309). -/
def statsWeeksDiff (nowMs : Int) (minDate : Ymd) : Int :=
  max 1 (ceilDiv (statsDaysDiff nowMs minDate) 7)

/-- The `monthsDiff` divisor of `getStats` (line 310). -/
def statsMonthsDiff (nowMs : Int) (minDate : Ymd) : Int :=
  max 1 (ceilDiv (statsDaysDiff nowMs minDate) 30)

/-- `getStats(userId)` (database.ts lines 277-329).  The three averages
    are zero unless `minDateStr` is non-null and `total > 0`. -/
def getStats (off nowMs : Int) (s : Store) (uid : String) : ConeStats :=
  let today := jsLocalYmd off nowMs
  let weekStart := civilFromDays (weekStartDay off nowMs)
  let monthStart : Ymd := ⟨today.y, today.m, 1⟩
  let total := (s.cones.filter (fun c => c.userId == uid)).length
  let averages : ℚ × ℚ × ℚ :=
    match getMinDate s uid with
    | some minDate =>
      if total > 0 then
        ((total : ℚ) / (statsDaysDiff nowMs minDate : ℚ),
         (total : ℚ) / (statsWeeksDiff nowMs minDate : ℚ),
         (total : ℚ) / (statsMonthsDiff nowMs minDate : ℚ))
      else (0, 0, 0)
    | none => (0, 0, 0)
  { total := total,
    today := countDateEq s uid today,
    thisWeek := countDateGe s uid weekStart,
    thisMonth := countDateGe s uid monthStart,
    averagePerDay := averages.1,
    averagePerWeek := averages.2.1,
    averagePerMonth := averages.2.2 }

/-- JavaScript object upsert `o[k] = (o[k] || 0) + 1` on a sparse
    histogram object. -/
def bump {κ : Type} [DecidableEq κ] : List (κ × Nat) → κ → List (κ × Nat)
  | [], k => [(k, 1)]
  | (k', v) :: rest, k =>
    if k' = k then (k', v + 1) :: rest else (k', v) :: bump rest k

/-- One iteration of the `getAnalysis` loop (database.ts lines 339-354). -/
def analysisStep (off : Int) (acc : TimeAnalysis) (c : StoredCone) : TimeAnalysis :=
  { hourOfDay := bump acc.hourOfDay (jsGetHours off c.timestamp),
    dayOfWeek := bump acc.dayOfWeek c.dayOfWeek,
    monthOfYear := bump acc.monthOfYear (jsLocalYmd off c.timestamp).m }

/-- `getAnalysis(userId)` (database.ts lines 331-357): bucket the user's
    cones by local hour of `timestamp`, by the stored `dayOfWeek`, and by
    local month of `timestamp`; zero buckets are never created. -/
def getAnalysis (off : Int) (s : Store) (uid : String) : TimeAnalysis :=
  (s.cones.filter (fun c => c.userId == uid)).foldl (analysisStep off) ⟨[], [], []⟩

/-- `exportData(userId)` (database.ts lines 377-384). -/
def exportData (nowMs : Int) (s : Store) (uid : String) : ExportData :=
  ⟨getAllCones s uid, nowMs, "2.0.0"⟩

/-- An element of an import payload's `cones` array.  `createdAt` may be
    absent (`none`); `notes` falls back to `''` through `cone.notes || ''`. -/
structure ImportCone where
  timestamp : Int
  date : Ymd
  time : Hms
  dayOfWeek : String
  notes : String
  createdAt : Option Int
deriving DecidableEq, Repr

/-- An exported `Cone` re-read as an import payload element. -/
def Cone.toImport (c : Cone) : ImportCone :=
  ⟨c.timestamp, c.date, c.time, c.dayOfWeek, c.notes, some c.createdAt⟩

/-- The `cleanCone` document built for each payload element (database.ts
    lines 400-409), placed under a fresh document id.  `cone.notes || ''`
    maps the empty string to itself and keeps any other; with a (valid)
    `timestamp` present, `cone.createdAt || cone.timestamp || now` reduces
    to `createdAt` when present and `timestamp` otherwise. -/
def cleanCone (nowMs : Int) (uid : String) (id : Nat) (c : ImportCone) : StoredCone :=
  ⟨id, uid, c.timestamp, c.date, c.time, c.dayOfWeek,
   (if c.notes = "" then "" else c.notes),
   (match c.createdAt with | some x => x | none => c.timestamp),
   nowMs⟩

/-- The import loop of `importData` (database.ts lines 396-413): one
    `batch.set(conesRef.doc(), cleanCone)` per payload element, each under
    the next fresh id. -/
def importLoop (nowMs : Int) (uid : String) : List ImportCone → Nat → List StoredCone
  | [], _ => []
  | c :: rest, nid => cleanCone nowMs uid nid c :: importLoop nowMs uid rest (nid + 1)

/-- `importData(userId, data)` (database.ts lines 386-430): append a fresh
    document per element of `data.cones` and report the count. -/
def importData (nowMs : Int) (s : Store) (uid : String)
    (cones : List ImportCone) : ImportResult × Store :=
  (⟨true, "Successfully imported " ++ toString cones.length ++ " cones",
    some cones.length⟩,
   { cones := s.cones ++ importLoop nowMs uid cones s.nextId,
     nextId := s.nextId + cones.length })

/-! ## HTTP layer (`src/index.ts`) -/

/-- Outcome of the `authenticateUser` middleware: either the request
    proceeds with the decoded user id, or it is answered immediately. -/
inductive AuthOutcome where
  | proceed (uid : String)
  | reject (status : Nat) (error : String)
deriving DecidableEq, Repr

/-- `authenticateUser` (index.ts lines 60-100).  `verify` models
    `verifyIdToken` resolving to the token's uid, `none` being a rejected
    token.  A missing header or one whose first seven characters are not
    `'Bearer '` is answered `401 {error:'No token provided'}`; a header
    whose token fails verification is answered `401 {error:'Invalid
    token', ...details}`. -/
def authenticateUser (authHeader : Option String)
    (verify : String → Option String) : AuthOutcome :=
  match authHeader with
  | none => .reject 401 "No token provided"
  | some h =>
    if h.take 7 == "Bearer " then
      match verify (h.drop 7) with
      | some uid => .proceed uid
      | none => .reject 401 "Invalid token"
    else .reject 401 "No token provided"

/-- One registered Express route: method, path pattern, and whether the
    `authenticateUser` middleware guards it. -/
structure Route where
  method : String
  path : String
  requiresAuth : Bool
deriving DecidableEq, Repr

/-- Every route registered on `app` in index.ts, in registration order
    (`app.use` middleware and the error handler are not routes). -/
def apiRoutes : List Route :=
  [⟨"GET", "/api/health", false⟩,
   ⟨"GET", "/api/cones", true⟩,
   ⟨"GET", "/api/cones/:id", true⟩,
   ⟨"POST", "/api/cones", true⟩,
   ⟨"PUT", "/api/cones/:id", true⟩,
   ⟨"DELETE", "/api/cones/:id", true⟩,
   ⟨"GET", "/api/stats", true⟩,
   ⟨"GET", "/api/mobile-health", false⟩,
   ⟨"GET", "/api/analysis", true⟩,
   ⟨"GET", "/api/export", true⟩,
   ⟨"POST", "/api/import", true⟩,
   ⟨"GET", "/api/cones/range/:start/:end", true⟩,
   ⟨"GET", "/api/firebase-config", false⟩,
   ⟨"GET", "/api/auth-test", true⟩,
   ⟨"GET", "*", false⟩]

/-- An HTTP response, as status code and the `error`/body tag of the JSON
    sent. -/
structure Response where
  status : Nat
  body : String
deriving DecidableEq, Repr

/-- `GET /api/cones/:id` (index.ts lines 145-160) after authentication:
    `404 Cone not found` when `getCone` is `null`. -/
def getConeRoute (s : Store) (uid : String) (id : Nat) : Response :=
  match getCone s uid id with
  | none => ⟨404, "Cone not found"⟩
  | some _ => ⟨200, "cone"⟩

/-- `DELETE /api/cones/:id` (index.ts lines 239-254) after authentication. -/
def deleteConeRoute (s : Store) (uid : String) (id : Nat) : Response × Store :=
  let (success, s2) := deleteCone s uid id
  if success then (⟨200, "Cone deleted successfully"⟩, s2)
  else (⟨404, "Cone not found"⟩, s2)

/-- The request body of `POST /api/cones`: `timestamp` may be absent
    (`none`), or present and parsed by `new Date(timestamp)` to a valid
    instant (`some (some ms)`) or to an Invalid Date (`some none`). -/
structure PostBody where
  timestamp : Option (Option Int)
  notes : Option String
deriving DecidableEq, Repr

/-- `POST /api/cones` (index.ts lines 163-197) after authentication:
    build the `Date` (defaulting to now), derive the local fields with
    `formatDateTime` — whose `toISOString()` throws on an Invalid Date,
    landing in the `catch` with `500 Failed to add cone` and nothing
    persisted — then `addCone` and answer `201`. -/
def postConesRoute (off nowMs : Int) (s : Store) (uid : String)
    (body : PostBody) : Response × Store :=
  let date : Option Int :=
    match body.timestamp with
    | some parsed => parsed
    | none => some nowMs
  match formatDateTime off date with
  | none => (⟨500, "Failed to add cone"⟩, s)
  | some f =>
    let coneData : Cone :=
      ⟨0, f.timestamp, f.date, f.time, f.dayOfWeek,
       (match body.notes with | some n => if n = "" then "" else n | none => ""),
       nowMs, nowMs⟩
    let (_, s2) := addCone s uid coneData
    (⟨201, "created"⟩, s2)

/-- The request body of `PUT /api/cones/:id`, as far as modelled: an
    optional `timestamp` (parsed as in `PostBody`) and the remaining
    updatable fields. -/
structure PutBody where
  timestamp : Option (Option Int)
  notes : Option String
deriving DecidableEq, Repr

/-- `PUT /api/cones/:id` (index.ts lines 200-236) after authentication:
    `404 Cone not found` when `getCone` is `null`; otherwise re-derive the
    local fields when a timestamp is supplied (`formatDateTime` throwing on
    an Invalid Date lands in the `catch` with `500`) and apply
    `updateCone`. -/
def putConeRoute (off nowMs : Int) (s : Store) (uid : String) (id : Nat)
    (body : PutBody) : Response × Store :=
  match getCone s uid id with
  | none => (⟨404, "Cone not found"⟩, s)
  | some _ =>
    match body.timestamp with
    | some parsed =>
      match formatDateTime off parsed with
      | none => (⟨500, "Failed to update cone"⟩, s)
      | some f =>
        let u : ConeUpdate :=
          ⟨some f.timestamp, some f.date, some f.time, some f.dayOfWeek, body.notes⟩
        let (success, s2) := updateCone nowMs s uid id u
        if success then (⟨200, "cone"⟩, s2) else (⟨400, "Failed to update cone"⟩, s2)
    | none =>
      let u : ConeUpdate := ⟨none, none, none, none, body.notes⟩
      let (success, s2) := updateCone nowMs s uid id u
      if success then (⟨200, "cone"⟩, s2) else (⟨400, "Failed to update cone"⟩, s2)

/-- The empty store an import round-trip targets. -/
def emptyStore : Store := ⟨[], 0⟩

/-! ## Calendar correctness -/

theorem doe_spec (z : Int) : 0 ≤ doeOf z ∧ doeOf z ≤ 146096 ∧
    z = eraOf z * 146097 + doeOf z - 719468 := by
  unfold doeOf eraOf; omega

set_option maxHeartbeats 4000000 in
theorem cent_doc_spec (n : Int) (h0 : 0 ≤ n) (h1 : n ≤ 146096) :
    0 ≤ centOf n ∧ centOf n ≤ 3 ∧ docOf n = n - 36524 * centOf n ∧
    0 ≤ docOf n ∧ docOf n ≤ 36524 ∧ (centOf n = 3 ∨ docOf n ≤ 36523) := by
  unfold centOf docOf; omega

set_option maxHeartbeats 1000000 in
theorem yoc_doy_spec (nc : Int) (h0 : 0 ≤ nc) (h1 : nc ≤ 36524) :
    0 ≤ yocOf nc ∧ yocOf nc ≤ 99 ∧
    doyOf nc = nc - 365 * yocOf nc - yocOf nc / 4 ∧
    0 ≤ doyOf nc ∧ doyOf nc ≤ 365 ∧
    1461 * yocOf nc ≤ 4 * nc + 3 ∧ 4 * nc + 3 < 1461 * (yocOf nc + 1) ∧
    4 * doyOf nc ≤ 4 * nc + 3 - 1461 * yocOf nc ∧
    4 * nc + 3 - 1461 * yocOf nc < 4 * (doyOf nc + 1) := by
  unfold yocOf doyOf; omega

set_option maxHeartbeats 1000000 in
theorem mp_spec (doy : Int) (h0 : 0 ≤ doy) (h1 : doy ≤ 365) :
    0 ≤ mpOf doy ∧ mpOf doy ≤ 11 ∧
    (153 * mpOf doy + 2) / 5 ≤ doy ∧ doy - (153 * mpOf doy + 2) / 5 ≤ 30 := by
  unfold mpOf; omega

set_option maxHeartbeats 1000000 in
theorem daysFromCivil_mk (era yoe mp doy : Int) (h1 : 0 ≤ yoe) (h2 : yoe ≤ 399)
    (h3 : 0 ≤ mp) (h4 : mp ≤ 11) :
    daysFromCivil
      ⟨yoe + era * 400 + (if mp + (if mp < 10 then 3 else -9) ≤ 2 then 1 else 0),
       mp + (if mp < 10 then 3 else -9),
       doy - (153 * mp + 2) / 5 + 1⟩ =
      era * 146097 + 365 * yoe + yoe / 4 - yoe / 100 + doy - 719468 := by
  unfold daysFromCivil
  simp only []
  split_ifs <;> omega

set_option maxHeartbeats 1000000 in
theorem daysFromCivil_civilFromDays (z : Int) : daysFromCivil (civilFromDays z) = z := by
  have hE := doe_spec z
  have hA := cent_doc_spec _ hE.1 hE.2.1
  have hB := yoc_doy_spec _ hA.2.2.2.1 hA.2.2.2.2.1
  have hC := mp_spec _ hB.2.2.2.1 hB.2.2.2.2.1
  have hyoe0 : 0 ≤ 100 * centOf (doeOf z) + yocOf (docOf (doeOf z)) := by omega
  have hyoe1 : 100 * centOf (doeOf z) + yocOf (docOf (doeOf z)) ≤ 399 := by omega
  have h4 : (100 * centOf (doeOf z) + yocOf (docOf (doeOf z))) / 4 =
      25 * centOf (doeOf z) + yocOf (docOf (doeOf z)) / 4 := by omega
  have h100 : (100 * centOf (doeOf z) + yocOf (docOf (doeOf z))) / 100 =
      centOf (doeOf z) := by omega
  calc daysFromCivil (civilFromDays z)
      = daysFromCivil
          ⟨100 * centOf (doeOf z) + yocOf (docOf (doeOf z)) + eraOf z * 400 +
             (if mpOf (doyOf (docOf (doeOf z))) +
                  (if mpOf (doyOf (docOf (doeOf z))) < 10 then 3 else -9) ≤ 2
              then 1 else 0),
           mpOf (doyOf (docOf (doeOf z))) +
             (if mpOf (doyOf (docOf (doeOf z))) < 10 then 3 else -9),
           doyOf (docOf (doeOf z)) -
             (153 * mpOf (doyOf (docOf (doeOf z))) + 2) / 5 + 1⟩ := rfl
    _ = eraOf z * 146097 + 365 * (100 * centOf (doeOf z) + yocOf (docOf (doeOf z))) +
          (100 * centOf (doeOf z) + yocOf (docOf (doeOf z))) / 4 -
          (100 * centOf (doeOf z) + yocOf (docOf (doeOf z))) / 100 +
          doyOf (docOf (doeOf z)) - 719468 :=
        daysFromCivil_mk (eraOf z) _ _ _ hyoe0 hyoe1 hC.1 hC.2.1
    _ = z := by omega


theorem civil_eq (z : Int) : civilFromDays z =
    ⟨100 * centOf (doeOf z) + yocOf (docOf (doeOf z)) + eraOf z * 400 +
       (if mpOf (doyOf (docOf (doeOf z))) +
            (if mpOf (doyOf (docOf (doeOf z))) < 10 then 3 else -9) ≤ 2
        then 1 else 0),
     mpOf (doyOf (docOf (doeOf z))) +
       (if mpOf (doyOf (docOf (doeOf z))) < 10 then 3 else -9),
     doyOf (docOf (doeOf z)) -
       (153 * mpOf (doyOf (docOf (doeOf z))) + 2) / 5 + 1⟩ := rfl

theorem era_step (z : Int) :
    (eraOf (z - 1) = eraOf z ∧ doeOf (z - 1) = doeOf z - 1) ∨
    (eraOf z = eraOf (z - 1) + 1 ∧ doeOf (z - 1) = 146096 ∧ doeOf z = 0) := by
  unfold doeOf
  unfold eraOf
  omega

theorem cent_step (n : Int) (h1 : 1 ≤ n) (h2 : n ≤ 146096) :
    (centOf (n - 1) = centOf n ∧ docOf (n - 1) = docOf n - 1) ∨
    (centOf n = centOf (n - 1) + 1 ∧ docOf (n - 1) = 36523 ∧ docOf n = 0) := by
  have hA1 := cent_doc_spec (n - 1) (by omega) (by omega)
  have hA2 := cent_doc_spec n (by omega) h2
  omega

theorem yoc_step (nc : Int) (h1 : 1 ≤ nc) (h2 : nc ≤ 36524) :
    (yocOf (nc - 1) = yocOf nc ∧ doyOf (nc - 1) = doyOf nc - 1) ∨
    (yocOf nc = yocOf (nc - 1) + 1 ∧ doyOf nc = 0 ∧
      (doyOf (nc - 1) = 364 ∨ doyOf (nc - 1) = 365)) := by
  have hB1 := yoc_doy_spec (nc - 1) (by omega) (by omega)
  have hB2 := yoc_doy_spec nc (by omega) h2
  by_cases hc : yocOf (nc - 1) = yocOf nc
  · exact Or.inl ⟨hc, by omega⟩
  · have hstep : yocOf nc = yocOf (nc - 1) + 1 := by omega
    have hz : doyOf nc = 0 := by omega
    exact Or.inr ⟨hstep, hz, by omega⟩

theorem mp_step (doy : Int) (h1 : 1 ≤ doy) (h2 : doy ≤ 365) :
    mpOf (doy - 1) = mpOf doy ∨ mpOf doy = mpOf (doy - 1) + 1 := by
  have hC1 := mp_spec (doy - 1) (by omega) (by omega)
  have hC2 := mp_spec doy (by omega) h2
  unfold mpOf at *
  omega

set_option maxHeartbeats 1000000 in
theorem civil_succ_lt (z : Int) :
    Ymd.lexLt (civilFromDays (z - 1)) (civilFromDays z) := by
  rw [civil_eq (z - 1), civil_eq z]
  rcases era_step z with ⟨he, hd⟩ | ⟨he, hd1, hd2⟩
  · -- same 400-year era
    rw [he, hd]
    have hE2 := doe_spec z
    have hE1 := doe_spec (z - 1)
    have hn1 : 1 ≤ doeOf z := by omega
    rcases cent_step (doeOf z) hn1 hE2.2.1 with ⟨hc, hnc⟩ | ⟨hc, hnc1, hnc2⟩
    · -- same century
      rw [hc, hnc]
      have hA2 := cent_doc_spec (doeOf z) hE2.1 hE2.2.1
      have hA1 := cent_doc_spec (doeOf z - 1) (by omega) (by omega)
      have hm1 : 1 ≤ docOf (doeOf z) := by omega
      rcases yoc_step (docOf (doeOf z)) hm1 hA2.2.2.2.2.1 with
        ⟨hw, hdoy⟩ | ⟨hw, hdoy2, hdoy1⟩
      · -- same year
        rw [hw, hdoy]
        have hB2 := yoc_doy_spec (docOf (doeOf z)) (by omega) hA2.2.2.2.2.1
        have hB1 := yoc_doy_spec (docOf (doeOf z) - 1) (by omega) (by omega)
        have hy1 : 1 ≤ doyOf (docOf (doeOf z)) := by omega
        rcases mp_step (doyOf (docOf (doeOf z))) hy1 hB2.2.2.2.2.1 with hmp | hmp
        · -- same month
          rw [hmp]
          simp only [Ymd.lexLt, true_and]
          split_ifs <;> omega
        · -- month rollover
          have hC2 := mp_spec (doyOf (docOf (doeOf z))) (by omega) hB2.2.2.2.2.1
          have hC1 := mp_spec (doyOf (docOf (doeOf z)) - 1) (by omega) (by omega)
          simp only [Ymd.lexLt, true_and]
          split_ifs <;> omega
      · -- year rollover
        rw [hw, hdoy2]
        have e0 : mpOf 0 = 0 := by norm_num [mpOf]
        have e1 : mpOf 364 = 11 := by norm_num [mpOf]
        have e2 : mpOf 365 = 11 := by norm_num [mpOf]
        rcases hdoy1 with h364 | h364 <;> rw [h364]
        · rw [e0, e1]
          simp only [Ymd.lexLt, true_and]
          split_ifs <;> omega
        · rw [e0, e2]
          simp only [Ymd.lexLt, true_and]
          split_ifs <;> omega
    · -- century rollover
      rw [hc, hnc1, hnc2]
      have e1 : yocOf 36523 = 99 := by norm_num [yocOf]
      have e2 : doyOf 36523 = 364 := by norm_num [doyOf]
      have e3 : yocOf 0 = 0 := by norm_num [yocOf]
      have e4 : doyOf 0 = 0 := by norm_num [doyOf]
      have e5 : mpOf 364 = 11 := by norm_num [mpOf]
      have e6 : mpOf 0 = 0 := by norm_num [mpOf]
      rw [e1, e2, e3, e4, e5, e6]
      simp only [Ymd.lexLt, true_and]
      split_ifs <;> omega
  · -- era rollover
    rw [he, hd1, hd2]
    have e1 : centOf 146096 = 3 := by norm_num [centOf]
    have e2 : docOf 146096 = 36524 := by norm_num [docOf]
    have e3 : centOf 0 = 0 := by norm_num [centOf]
    have e4 : docOf 0 = 0 := by norm_num [docOf]
    have e5 : yocOf 36524 = 99 := by norm_num [yocOf]
    have e6 : doyOf 36524 = 365 := by norm_num [doyOf]
    have e7 : yocOf 0 = 0 := by norm_num [yocOf]
    have e8 : doyOf 0 = 0 := by norm_num [doyOf]
    have e9 : mpOf 365 = 11 := by norm_num [mpOf]
    have e10 : mpOf 0 = 0 := by norm_num [mpOf]
    rw [e1, e2, e5, e6, e9, e3, e4, e7, e8, e10]
    simp only [Ymd.lexLt, true_and]
    split_ifs <;> omega

/-- `civilFromDays` is injective: distinct days have distinct calendar
    dates. -/
theorem civilFromDays_injective {a b : Int}
    (h : civilFromDays a = civilFromDays b) : a = b := by
  have h2 := congrArg daysFromCivil h
  rwa [daysFromCivil_civilFromDays, daysFromCivil_civilFromDays] at h2

/-- `Ymd.lexLe` is reflexive. -/
theorem Ymd.lexLe_refl (a : Ymd) : Ymd.lexLe a a := by
  cases a
  exact Or.inr ⟨rfl, Or.inr ⟨rfl, le_refl _⟩⟩

/-- `Ymd.leB` is reflexive. -/
theorem Ymd.leB_self (a : Ymd) : Ymd.leB a a = true :=
  decide_eq_true (Ymd.lexLe_refl a)

/-- Strictly smaller dates are not `lexLe`-above. -/
theorem Ymd.not_lexLe_of_lexLt {a b : Ymd} (h : Ymd.lexLt a b) :
    ¬ Ymd.lexLe b a := by
  cases a
  cases b
  simp only [Ymd.lexLt, Ymd.lexLe] at *
  omega

/-- `Ymd.leB` refutes the reverse of a strict inequality. -/
theorem Ymd.leB_eq_false_of_lexLt {a b : Ymd} (h : Ymd.lexLt a b) :
    Ymd.leB b a = false :=
  decide_eq_false (Ymd.not_lexLe_of_lexLt h)

/-! ## Claims -/

/-- **C1.** For every valid instant, the Local-Field Deriver
    (`formatDateTime` / `computeFromTimestamp`) produces a `localDate`
    equal to the wall-clock calendar day of that instant in the configured
    local timezone (`civilFromDays` of the local day number), not the UTC
    day; in particular, whenever the instant is within one minute of local
    midnight and the local and UTC day numbers differ, the derived local
    date differs from the UTC calendar date. -/
theorem C1_localFieldDeriver_localDay (off ms : Int)
    (hmid : msOfLocalDay off ms ≤ 60000 ∨ 86340000 ≤ msOfLocalDay off ms)
    (hdiff : jsLocalDay off ms ≠ utcDay ms) :
    formatDateTime off (some ms) =
      some ⟨ms, civilFromDays (jsLocalDay off ms), jsLocalHms off ms, jsDayName off ms⟩ ∧
    (computeFromTimestamp off ms).date = civilFromDays (jsLocalDay off ms) ∧
    jsLocalYmd off ms ≠ utcYmd ms := by
  refine ⟨rfl, rfl, fun h => hdiff (civilFromDays_injective h)⟩

/-- Witness for C1 at the instant 1969-12-31T23:00:30Z with a UTC+1 local
    zone: 30 seconds past local midnight of 1970-01-01, while the UTC day
    is still 1969-12-31; the derived local date is the local day and not
    the UTC date. -/
theorem C1_localFieldDeriver_localDay_witness :
    msOfLocalDay 60 (-3570000) ≤ 60000 ∧
    jsLocalDay 60 (-3570000) ≠ utcDay (-3570000) ∧
    jsLocalYmd 60 (-3570000) ≠ utcYmd (-3570000) ∧
    jsLocalYmd 60 (-3570000) = ⟨1970, 1, 1⟩ ∧
    utcYmd (-3570000) = ⟨1969, 12, 31⟩ :=
  ⟨by decide, by decide,
   (C1_localFieldDeriver_localDay 60 (-3570000) (Or.inl (by decide)) (by decide)).2.2,
   by decide, by decide⟩

/-- **C9.** For every input that cannot be parsed as a valid point in time
    (an Invalid `Date`), the Local-Field Deriver fails (its leading
    `toISOString()` throws — the spec's `InvalidInstant`) rather than
    returning derived fields, and `POST /api/cones` with such a timestamp
    answers an error and leaves the store unchanged: no event is created. -/
theorem C9_invalid_instant (off nowMs : Int) (s : Store) (uid : String)
    (notes : Option String) :
    formatDateTime off none = none ∧
    postConesRoute off nowMs s uid ⟨some none, notes⟩ = (⟨500, "Failed to add cone"⟩, s) :=
  ⟨rfl, rfl⟩

/-- **C5.** For an owner with zero events, `getStats` returns all-zero
    counts and averages without error: `getMinDate` is `null`, so the
    average branch is skipped, and in the taken branch every divisor is
    guarded below by 1 (`Math.max(1, …)`), so no division by zero is
    reachable. -/
theorem C5_stats_zero_events (off nowMs : Int) (s : Store) (uid : String)
    (h : ∀ c ∈ s.cones, c.userId ≠ uid) :
    getStats off nowMs s uid = ⟨0, 0, 0, 0, 0, 0, 0⟩ ∧
    (∀ t m, 1 ≤ statsDaysDiff t m ∧ 1 ≤ statsWeeksDiff t m ∧
      1 ≤ statsMonthsDiff t m) := by
  have hf : s.cones.filter (fun c => c.userId == uid) = [] :=
    List.filter_eq_nil_iff.mpr (fun c hc => by simp [h c hc])
  have hf2 : ∀ p : StoredCone → Bool,
      s.cones.filter (fun c => c.userId == uid && p c) = [] :=
    fun p => List.filter_eq_nil_iff.mpr (fun c hc => by simp [h c hc])
  have hmin : getMinDate s uid = none := by
    unfold getMinDate
    rw [hf]
    rfl
  constructor
  · simp only [getStats, countDateEq, countDateGe, hmin, hf, hf2, List.length_nil]
  · exact fun t m => ⟨le_max_left _ _, le_max_left _ _, le_max_left _ _⟩

/-- Witness for C5: a store holding one cone owned by `bob` has all-zero
    statistics for `alice`. -/
theorem C5_stats_zero_events_witness :
    getStats 0 0 ⟨[⟨0, "bob", 0, ⟨1970, 1, 1⟩, ⟨0, 0, 0⟩, "Thursday", "", 0, 0⟩], 1⟩
      "alice" = ⟨0, 0, 0, 0, 0, 0, 0⟩ :=
  (C5_stats_zero_events 0 0
    ⟨[⟨0, "bob", 0, ⟨1970, 1, 1⟩, ⟨0, 0, 0⟩, "Thursday", "", 0, 0⟩], 1⟩
    "alice" (by decide)).1

/-- **C3.** `getStats`'s `thisWeek` counts exactly the owner's events whose
    stored `date` is at or after the week start, where the week start is
    `today - ((getDay() + 6) % 7)` days (Monday = 0): that day is the most
    recent Monday (it falls on a Monday, is at most today, and less than 7
    days back), the day before it is a Sunday, an event dated the week
    start is in the counted set, and an event dated the prior Sunday is
    not. -/
theorem C3_thisWeek_boundary (off nowMs : Int) (s : Store) (uid : String)
    (c : StoredCone) (hc : c ∈ s.cones) (hu : c.userId = uid) :
    (getStats off nowMs s uid).thisWeek =
      countDateGe s uid (civilFromDays (weekStartDay off nowMs)) ∧
    weekStartDay off nowMs = jsLocalDay off nowMs - (jsGetDay off nowMs + 6) % 7 ∧
    (weekStartDay off nowMs + 4) % 7 = 1 ∧
    weekStartDay off nowMs ≤ jsLocalDay off nowMs ∧
    jsLocalDay off nowMs - weekStartDay off nowMs < 7 ∧
    (weekStartDay off nowMs - 1 + 4) % 7 = 0 ∧
    (c.date = civilFromDays (weekStartDay off nowMs) →
      c ∈ s.cones.filter (fun e => e.userId == uid &&
        Ymd.leB (civilFromDays (weekStartDay off nowMs)) e.date)) ∧
    (c.date = civilFromDays (weekStartDay off nowMs - 1) →
      c ∉ s.cones.filter (fun e => e.userId == uid &&
        Ymd.leB (civilFromDays (weekStartDay off nowMs)) e.date)) := by
  refine ⟨rfl, rfl, ?_, ?_, ?_, ?_, ?_, ?_⟩
  · unfold weekStartDay jsGetDay jsLocalDay localMs
    omega
  · unfold weekStartDay jsGetDay jsLocalDay localMs
    omega
  · unfold weekStartDay jsGetDay jsLocalDay localMs
    omega
  · unfold weekStartDay jsGetDay jsLocalDay localMs
    omega
  · intro hdate
    exact List.mem_filter.mpr ⟨hc, by simp [hu, hdate, Ymd.leB_self]⟩
  · intro hdate hmem
    have hpred := (List.mem_filter.mp hmem).2
    have hfalse := Ymd.leB_eq_false_of_lexLt (civil_succ_lt (weekStartDay off nowMs))
    rw [Bool.and_eq_true] at hpred
    rw [hdate] at hpred
    rw [hpred.2] at hfalse
    cases hfalse

/-- Witness for C3 at `now` = the epoch (Thursday 1970-01-01, UTC zone):
    the week start is Monday 1969-12-29 (day −3), and a cone dated that
    Monday is in the counted set. -/
theorem C3_thisWeek_boundary_witness :
    (weekStartDay 0 0 + 4) % 7 = 1 ∧
    (⟨0, "alice", 0, civilFromDays (-3), ⟨0, 0, 0⟩, "Monday", "", 0, 0⟩ : StoredCone) ∈
      (Store.cones ⟨[⟨0, "alice", 0, civilFromDays (-3), ⟨0, 0, 0⟩, "Monday", "", 0, 0⟩], 1⟩).filter
        (fun e => e.userId == "alice" && Ymd.leB (civilFromDays (weekStartDay 0 0)) e.date) := by
  have h := C3_thisWeek_boundary 0 0
    ⟨[⟨0, "alice", 0, civilFromDays (-3), ⟨0, 0, 0⟩, "Monday", "", 0, 0⟩], 1⟩ "alice"
    ⟨0, "alice", 0, civilFromDays (-3), ⟨0, 0, 0⟩, "Monday", "", 0, 0⟩
    (List.mem_singleton.mpr rfl) rfl
  exact ⟨h.2.2.1, h.2.2.2.2.2.2.1 (by decide)⟩

/-- In a list with pairwise-distinct ids (Firestore documents), `find?` by
    a member's id returns exactly that member. -/
theorem find?_eq_some_of_uniqueId (l : List StoredCone) (e : StoredCone)
    (hp : l.Pairwise (fun a b => a.id ≠ b.id)) (he : e ∈ l) :
    l.find? (fun c => c.id == e.id) = some e := by
  induction l with
  | nil => cases he
  | cons x xs ih =>
    rcases List.mem_cons.mp he with rfl | hmem
    · simp [List.find?]
    · have hx : x.id ≠ e.id := (List.pairwise_cons.mp hp).1 e hmem
      have hpx : (x.id == e.id) = false := by simp [hx]
      simp only [List.find?, hpx]
      exact ih (List.pairwise_cons.mp hp).2 hmem

/-- **C4.** Ownership isolation: for distinct principals `A ≠ B` and an
    event owned by `B`, principal `A`'s `getCone` is `null`, `updateCone`
    and `deleteCone` return `false` and leave the store unchanged, and at
    the HTTP layer `A` receives the same `404 Cone not found` response for
    `B`'s event as for a nonexistent id, on GET, DELETE and PUT alike —
    ownership mismatch is indistinguishable from not-found. -/
theorem C4_ownership_isolation (off nowMs : Int) (s : Store) (A B : String)
    (idB idNone : Nat) (e : StoredCone) (u : ConeUpdate) (pb : PutBody)
    (hwf : Store.WF s) (hAB : A ≠ B) (he : e ∈ s.cones) (hid : e.id = idB)
    (hB : e.userId = B) (hmiss : ∀ c ∈ s.cones, c.id ≠ idNone) :
    getCone s A idB = none ∧
    updateCone nowMs s A idB u = (false, s) ∧
    deleteCone s A idB = (false, s) ∧
    getCone s A idNone = none ∧
    getConeRoute s A idB = ⟨404, "Cone not found"⟩ ∧
    getConeRoute s A idB = getConeRoute s A idNone ∧
    (deleteConeRoute s A idB).1 = ⟨404, "Cone not found"⟩ ∧
    (deleteConeRoute s A idB).1 = (deleteConeRoute s A idNone).1 ∧
    putConeRoute off nowMs s A idB pb = (⟨404, "Cone not found"⟩, s) ∧
    (putConeRoute off nowMs s A idB pb).1 = (putConeRoute off nowMs s A idNone pb).1 := by
  subst hid
  have hfind : s.cones.find? (fun c => c.id == e.id) = some e :=
    find?_eq_some_of_uniqueId s.cones e hwf.2 he
  have hnone : s.cones.find? (fun c => c.id == idNone) = none :=
    List.find?_eq_none.mpr (fun c hc => by simp [hmiss c hc])
  have hA : e.userId ≠ A := by
    rw [hB]
    exact fun hh => hAB hh.symm
  have hget : getCone s A e.id = none := by
    unfold getCone
    rw [hfind]
    simp [hA]
  have hget2 : getCone s A idNone = none := by
    unfold getCone
    rw [hnone]
  have hupd : updateCone nowMs s A e.id u = (false, s) := by
    unfold updateCone
    rw [hfind]
    simp [hA]
  have hdel : deleteCone s A e.id = (false, s) := by
    unfold deleteCone
    rw [hfind]
    simp [hA]
  have hdel2 : deleteCone s A idNone = (false, s) := by
    unfold deleteCone
    rw [hnone]
  refine ⟨hget, hupd, hdel, hget2, ?_, ?_, ?_, ?_, ?_, ?_⟩
  · unfold getConeRoute
    rw [hget]
  · unfold getConeRoute
    rw [hget, hget2]
  · unfold deleteConeRoute
    rw [hdel]
    rfl
  · unfold deleteConeRoute
    rw [hdel, hdel2]
  · unfold putConeRoute
    rw [hget]
  · unfold putConeRoute
    rw [hget, hget2]

/-- Witness for C4: `alice` probing `bob`'s cone (id 0) and a nonexistent
    id 5 gets identical not-found outcomes. -/
theorem C4_ownership_isolation_witness :
    getCone ⟨[⟨0, "bob", 0, ⟨1970, 1, 1⟩, ⟨0, 0, 0⟩, "Thursday", "", 0, 0⟩], 1⟩
      "alice" 0 = none ∧
    getConeRoute ⟨[⟨0, "bob", 0, ⟨1970, 1, 1⟩, ⟨0, 0, 0⟩, "Thursday", "", 0, 0⟩], 1⟩
        "alice" 0 =
      getConeRoute ⟨[⟨0, "bob", 0, ⟨1970, 1, 1⟩, ⟨0, 0, 0⟩, "Thursday", "", 0, 0⟩], 1⟩
        "alice" 5 := by
  have h := C4_ownership_isolation 0 0
    ⟨[⟨0, "bob", 0, ⟨1970, 1, 1⟩, ⟨0, 0, 0⟩, "Thursday", "", 0, 0⟩], 1⟩
    "alice" "bob" 0 5 ⟨0, "bob", 0, ⟨1970, 1, 1⟩, ⟨0, 0, 0⟩, "Thursday", "", 0, 0⟩
    ⟨none, none, none, none, none⟩ ⟨none, none⟩
    (by constructor
        · intro c hc
          simp at hc
          rw [hc]
          decide
        · decide)
    (by decide) (List.mem_singleton.mpr rfl) rfl rfl
    (by intro c hc
        simp at hc
        rw [hc]
        decide)
  exact ⟨h.1, h.2.2.2.2.2.1⟩

/-- `normalizeApply` keeps a document's identity fields and, for the
    owner's documents, leaves the derived fields equal to what
    `computeFromTimestamp` yields. -/
theorem normalizeApply_spec (off now : Int) (uid : String) (c : StoredCone) :
    (normalizeApply off now uid c).userId = c.userId ∧
    (normalizeApply off now uid c).timestamp = c.timestamp ∧
    (c.userId = uid →
      (normalizeApply off now uid c).date = (computeFromTimestamp off c.timestamp).date ∧
      (normalizeApply off now uid c).time = (computeFromTimestamp off c.timestamp).time ∧
      (normalizeApply off now uid c).dayOfWeek =
        (computeFromTimestamp off c.timestamp).dayOfWeek) := by
  unfold normalizeApply
  by_cases h : (c.userId == uid && normalizeNeeded off c) = true
  · rw [if_pos h]
    exact ⟨rfl, rfl, fun _ => ⟨rfl, rfl, rfl⟩⟩
  · rw [if_neg h]
    refine ⟨rfl, rfl, fun hu => ?_⟩
    have hneed : normalizeNeeded off c = false := by
      simp [hu] at h
      exact h
    unfold normalizeNeeded at hneed
    simp only [Bool.or_eq_false_iff, bne_eq_false_iff_eq] at hneed
    exact ⟨hneed.1.1.symm, hneed.1.2.symm, hneed.2.symm⟩

/-- `normalizeApply` is the identity on rows whose staging condition is
    false. -/
theorem normalizeApply_of_false (off now : Int) (uid : String) (x : StoredCone)
    (h : (x.userId == uid && normalizeNeeded off x) = false) :
    normalizeApply off now uid x = x := by
  unfold normalizeApply
  rw [if_neg (by rw [h]; exact Bool.false_ne_true)]

/-- After one `normalizeApply`, the row no longer needs normalization, so
    a second `normalizeApply` is the identity. -/
theorem normalizeApply_second (off now now2 : Int) (uid : String) (c : StoredCone) :
    ((normalizeApply off now uid c).userId == uid &&
      normalizeNeeded off (normalizeApply off now uid c)) = false ∧
    normalizeApply off now2 uid (normalizeApply off now uid c) =
      normalizeApply off now uid c := by
  have hspec := normalizeApply_spec off now uid c
  have hcond : ((normalizeApply off now uid c).userId == uid &&
      normalizeNeeded off (normalizeApply off now uid c)) = false := by
    by_cases hu : c.userId = uid
    · have h1 := (hspec.2.2 hu).1
      have h2 := (hspec.2.2 hu).2.1
      have h3 := (hspec.2.2 hu).2.2
      have hneed : normalizeNeeded off (normalizeApply off now uid c) = false := by
        unfold normalizeNeeded
        rw [hspec.2.1, h1, h2, h3]
        simp
      rw [hneed]
      simp
    · have : ((normalizeApply off now uid c).userId == uid) = false := by
        rw [hspec.1]
        simp [hu]
      rw [this]
      simp
  exact ⟨hcond, normalizeApply_of_false off now2 uid _ hcond⟩

/-- **C2.** `normalizeDateFields` is idempotent: running it a second time
    with no intervening writes stages no updates, returns 0, and leaves the
    store unchanged — because after one run every stored (date, time,
    dayOfWeek) of the owner equals the values derived from its timestamp. -/
theorem C2_normalizeDateFields_idempotent (off now1 now2 : Int) (s : Store)
    (uid : String) :
    (normalizeDateFields off now2 (normalizeDateFields off now1 s uid).2 uid).1 = 0 ∧
    (normalizeDateFields off now2 (normalizeDateFields off now1 s uid).2 uid).2 =
      (normalizeDateFields off now1 s uid).2 ∧
    (∀ c ∈ (normalizeDateFields off now1 s uid).2.cones, c.userId = uid →
      c.date = (computeFromTimestamp off c.timestamp).date ∧
      c.time = (computeFromTimestamp off c.timestamp).time ∧
      c.dayOfWeek = (computeFromTimestamp off c.timestamp).dayOfWeek) := by
  refine ⟨?_, ?_, ?_⟩
  · unfold normalizeDateFields
    simp only [List.length_eq_zero]
    rw [List.filter_eq_nil_iff]
    intro c hc
    rcases List.mem_map.mp hc with ⟨y, _, rfl⟩
    rw [(normalizeApply_second off now1 now2 uid y).1]
    exact Bool.false_ne_true
  · unfold normalizeDateFields
    simp only [List.map_map]
    congr 1
    apply List.map_congr_left
    intro y _
    exact (normalizeApply_second off now1 now2 uid y).2
  · intro c hc hu
    rcases List.mem_map.mp hc with ⟨y, _, rfl⟩
    have hspec := normalizeApply_spec off now1 uid y
    have hyu : y.userId = uid := by rw [← hspec.1]; exact hu
    rw [hspec.2.1]
    exact hspec.2.2 hyu

/-- Witness for C2: a store holding one cone of `alice` with wrong derived
    fields is corrected by the first run and untouched (0 updates) by the
    second. -/
theorem C2_normalizeDateFields_idempotent_witness :
    (normalizeDateFields 0 5
      (normalizeDateFields 0 3
        ⟨[⟨0, "alice", 0, ⟨1999, 1, 1⟩, ⟨1, 2, 3⟩, "Monday", "", 0, 0⟩], 1⟩ "alice").2
      "alice").1 = 0 ∧
    (normalizeDateFields 0 3
      ⟨[⟨0, "alice", 0, ⟨1999, 1, 1⟩, ⟨1, 2, 3⟩, "Monday", "", 0, 0⟩], 1⟩ "alice").1 = 1 :=
  ⟨(C2_normalizeDateFields_idempotent 0 3 5
      ⟨[⟨0, "alice", 0, ⟨1999, 1, 1⟩, ⟨1, 2, 3⟩, "Monday", "", 0, 0⟩], 1⟩ "alice").1,
   by decide⟩

/-- `importLoop` creates one document per payload element. -/
theorem importLoop_length (nowMs : Int) (uid : String) :
    ∀ (data : List ImportCone) (nid : Nat),
      (importLoop nowMs uid data nid).length = data.length := by
  intro data
  induction data with
  | nil => intro nid; rfl
  | cons c rest ih =>
    intro nid
    simp only [importLoop, List.length_cons, ih]

/-- Every document `importLoop` creates belongs to the importing owner. -/
theorem importLoop_userId (nowMs : Int) (uid : String) :
    ∀ (data : List ImportCone) (nid : Nat) (c2 : StoredCone),
      c2 ∈ importLoop nowMs uid data nid → c2.userId = uid := by
  intro data
  induction data with
  | nil => intro nid c2 h; cases h
  | cons c rest ih =>
    intro nid c2 h
    rcases List.mem_cons.mp h with rfl | hmem
    · rfl
    · exact ih (nid + 1) c2 hmem

/-- The ids `importLoop` assigns are the consecutive fresh ids. -/
theorem importLoop_ids (nowMs : Int) (uid : String) :
    ∀ (data : List ImportCone) (nid : Nat),
      (importLoop nowMs uid data nid).map StoredCone.id =
        List.range' nid data.length := by
  intro data
  induction data with
  | nil => intro nid; rfl
  | cons c rest ih =>
    intro nid
    simp only [importLoop, List.map_cons, List.length_cons, List.range', ih]
    rfl

/-- Each payload element yields a stored document with its timestamp and
    its (`|| ''`-normalized) notes. -/
theorem importLoop_mem (nowMs : Int) (uid : String) :
    ∀ (data : List ImportCone) (nid : Nat) (c : ImportCone), c ∈ data →
      ∃ c2 ∈ importLoop nowMs uid data nid,
        c2.timestamp = c.timestamp ∧
        c2.notes = (if c.notes = "" then "" else c.notes) := by
  intro data
  induction data with
  | nil => intro nid c h; cases h
  | cons x rest ih =>
    intro nid c h
    rcases List.mem_cons.mp h with rfl | hmem
    · exact ⟨cleanCone nowMs uid nid c, List.mem_cons_self _ _, rfl, rfl⟩
    · rcases ih (nid + 1) c hmem with ⟨c2, hc2, hts, hn⟩
      exact ⟨c2, List.mem_cons_of_mem _ hc2, hts, hn⟩

/-- **C6.** Export/import round-trip: exporting all of an owner's events
    and importing the payload into an empty store succeeds with
    `importedCount` equal to the exported event count, the new store holds
    exactly that many events, every exported event has a stored
    counterpart with equal `timestamp` and equal `notes` owned by the
    importer, and the assigned ids are pairwise distinct (fresh). -/
theorem C6_export_import_roundtrip (exportMs importMs : Int) (s : Store)
    (uid : String) :
    (importData importMs emptyStore uid
      ((exportData exportMs s uid).cones.map Cone.toImport)).1.success = true ∧
    (importData importMs emptyStore uid
      ((exportData exportMs s uid).cones.map Cone.toImport)).1.importedCount =
      some (exportData exportMs s uid).cones.length ∧
    (importData importMs emptyStore uid
      ((exportData exportMs s uid).cones.map Cone.toImport)).2.cones.length =
      (exportData exportMs s uid).cones.length ∧
    (∀ c ∈ (exportData exportMs s uid).cones,
      ∃ c2 ∈ (importData importMs emptyStore uid
          ((exportData exportMs s uid).cones.map Cone.toImport)).2.cones,
        c2.timestamp = c.timestamp ∧ c2.notes = c.notes ∧ c2.userId = uid) ∧
    ((importData importMs emptyStore uid
      ((exportData exportMs s uid).cones.map Cone.toImport)).2.cones.map
        StoredCone.id).Nodup := by
  refine ⟨rfl, ?_, ?_, ?_, ?_⟩
  · unfold importData
    simp [List.length_map]
  · unfold importData emptyStore
    simp only [List.nil_append]
    rw [importLoop_length]
    simp [List.length_map]
  · intro c hc
    have hic : Cone.toImport c ∈ (exportData exportMs s uid).cones.map Cone.toImport :=
      List.mem_map_of_mem _ hc
    rcases importLoop_mem importMs uid _ emptyStore.nextId _ hic with ⟨c2, hc2, hts, hn⟩
    refine ⟨c2, ?_, hts, ?_, importLoop_userId importMs uid _ _ _ hc2⟩
    · unfold importData emptyStore
      simp only [List.nil_append]
      exact hc2
    · rw [hn]
      by_cases hempty : c.toImport.notes = ""
      · rw [if_pos hempty]
        exact hempty.symm
      · rw [if_neg hempty]
        rfl
  · unfold importData emptyStore
    simp only [List.nil_append]
    rw [importLoop_ids]
    exact List.nodup_range' _ _

/-- Witness for C6: a one-cone store for `alice` round-trips into one
    re-imported cone with the same timestamp and notes. -/
theorem C6_export_import_roundtrip_witness :
    (importData 7 emptyStore "alice"
      ((exportData 3 ⟨[⟨0, "alice", 42, ⟨1970, 1, 1⟩, ⟨0, 0, 0⟩, "Thursday", "note",
          0, 0⟩], 1⟩ "alice").cones.map Cone.toImport)).1.importedCount = some 1 ∧
    (∃ c2 ∈ (importData 7 emptyStore "alice"
        ((exportData 3 ⟨[⟨0, "alice", 42, ⟨1970, 1, 1⟩, ⟨0, 0, 0⟩, "Thursday", "note",
            0, 0⟩], 1⟩ "alice").cones.map Cone.toImport)).2.cones,
      c2.timestamp = 42 ∧ c2.notes = "note" ∧ c2.userId = "alice") := by
  have h := C6_export_import_roundtrip 3 7
    ⟨[⟨0, "alice", 42, ⟨1970, 1, 1⟩, ⟨0, 0, 0⟩, "Thursday", "note", 0, 0⟩], 1⟩ "alice"
  have hexp : (exportData 3
      ⟨[⟨0, "alice", 42, ⟨1970, 1, 1⟩, ⟨0, 0, 0⟩, "Thursday", "note", 0, 0⟩], 1⟩
      "alice").cones =
      [⟨0, 42, ⟨1970, 1, 1⟩, ⟨0, 0, 0⟩, "Thursday", "note", 0, 0⟩] := by
    unfold exportData getAllCones
    rw [show (List.filter (fun c => c.userId == "alice")
        [(⟨0, "alice", 42, ⟨1970, 1, 1⟩, ⟨0, 0, 0⟩, "Thursday", "note", 0, 0⟩ :
          StoredCone)]) =
        [⟨0, "alice", 42, ⟨1970, 1, 1⟩, ⟨0, 0, 0⟩, "Thursday", "note", 0, 0⟩]
      from by decide]
    rw [List.map_cons, List.map_nil, List.mergeSort_singleton]
    rfl
  refine ⟨by rw [h.2.1, hexp]; rfl, ?_⟩
  have hm := h.2.2.2.1 ⟨0, 42, ⟨1970, 1, 1⟩, ⟨0, 0, 0⟩, "Thursday", "note", 0, 0⟩
    (by rw [hexp]; exact List.mem_singleton.mpr rfl)
  exact hm

/-- **C10.** `importData` appends: every pre-existing document survives a
    call unchanged, the owner's event count grows by exactly the payload
    length, which is the reported `importedCount`, and the call reports
    success. -/
theorem C10_import_appends (nowMs : Int) (s : Store) (uid : String)
    (data : List ImportCone) :
    (∀ c ∈ s.cones, c ∈ (importData nowMs s uid data).2.cones) ∧
    ((importData nowMs s uid data).2.cones.filter
        (fun c => c.userId == uid)).length =
      (s.cones.filter (fun c => c.userId == uid)).length + data.length ∧
    (importData nowMs s uid data).2.cones.length = s.cones.length + data.length ∧
    (importData nowMs s uid data).1.importedCount = some data.length ∧
    (importData nowMs s uid data).1.success = true := by
  refine ⟨?_, ?_, ?_, rfl, rfl⟩
  · intro c hc
    unfold importData
    exact List.mem_append_left _ hc
  · unfold importData
    simp only [List.filter_append, List.length_append]
    congr 1
    rw [List.filter_eq_self.mpr, importLoop_length]
    intro a ha
    simp [importLoop_userId nowMs uid data s.nextId a ha]
  · unfold importData
    simp only [List.length_append]
    rw [importLoop_length]

/-- Witness for C10: importing one cone on top of a one-cone store of
    `bob` keeps `bob`'s cone and adds one for `alice`. -/
theorem C10_import_appends_witness :
    (⟨0, "bob", 0, ⟨1970, 1, 1⟩, ⟨0, 0, 0⟩, "Thursday", "", 0, 0⟩ : StoredCone) ∈
      (importData 9 ⟨[⟨0, "bob", 0, ⟨1970, 1, 1⟩, ⟨0, 0, 0⟩, "Thursday", "", 0, 0⟩], 1⟩
        "alice" [⟨5, ⟨1970, 1, 2⟩, ⟨1, 0, 0⟩, "Friday", "x", none⟩]).2.cones ∧
    (importData 9 ⟨[⟨0, "bob", 0, ⟨1970, 1, 1⟩, ⟨0, 0, 0⟩, "Thursday", "", 0, 0⟩], 1⟩
      "alice" [⟨5, ⟨1970, 1, 2⟩, ⟨1, 0, 0⟩, "Friday", "x", none⟩]).1.importedCount =
      some 1 := by
  have h := C10_import_appends 9
    ⟨[⟨0, "bob", 0, ⟨1970, 1, 1⟩, ⟨0, 0, 0⟩, "Thursday", "", 0, 0⟩], 1⟩
    "alice" [⟨5, ⟨1970, 1, 2⟩, ⟨1, 0, 0⟩, "Friday", "x", none⟩]
  exact ⟨h.1 _ (List.mem_singleton.mpr rfl), h.2.2.2.1⟩

/-- A key present after a `bump` was the bumped key or already present. -/
theorem bump_mem {κ : Type} [DecidableEq κ] :
    ∀ (l : List (κ × Nat)) (k0 k : κ) (v : Nat),
      (k, v) ∈ bump l k0 → k = k0 ∨ ∃ v2, (k, v2) ∈ l := by
  intro l
  induction l with
  | nil =>
    intro k0 k v h
    rcases List.mem_singleton.mp h with h2
    exact Or.inl (congrArg Prod.fst h2)
  | cons kv rest ih =>
    intro k0 k v h
    by_cases he : kv.1 = k0
    · rw [show bump (kv :: rest) k0 = (kv.1, kv.2 + 1) :: rest from by
        rw [show (kv :: rest) = ((kv.1, kv.2) :: rest) from by rfl]
        simp [bump, he]] at h
      rcases List.mem_cons.mp h with h2 | h2
      · rw [Prod.mk.injEq] at h2
        exact Or.inl (h2.1.trans he)
      · exact Or.inr ⟨v, List.mem_cons_of_mem _ h2⟩
    · rw [show bump (kv :: rest) k0 = (kv.1, kv.2) :: bump rest k0 from by
        rw [show (kv :: rest) = ((kv.1, kv.2) :: rest) from by rfl]
        simp [bump, he]] at h
      rcases List.mem_cons.mp h with h2 | h2
      · rw [Prod.mk.injEq] at h2
        refine Or.inr ⟨kv.2, ?_⟩
        rw [h2.1]
        exact List.mem_cons_self _ _
      · rcases ih k0 k v h2 with h3 | ⟨v2, h3⟩
        · exact Or.inl h3
        · exact Or.inr ⟨v2, List.mem_cons_of_mem _ h3⟩

/-- The `hourOfDay` component of the `getAnalysis` fold is the fold of
    `bump` over the local hours. -/
theorem analysis_hourOfDay (off : Int) :
    ∀ (l : List StoredCone) (acc : TimeAnalysis),
      (l.foldl (analysisStep off) acc).hourOfDay =
        l.foldl (fun h c => bump h (jsGetHours off c.timestamp)) acc.hourOfDay := by
  intro l
  induction l with
  | nil => intro acc; rfl
  | cons c rest ih =>
    intro acc
    rw [List.foldl_cons, List.foldl_cons, ih]
    rfl

/-- Keys of the hour fold come from the accumulator or from some event's
    local hour. -/
theorem foldl_bump_keys (off : Int) :
    ∀ (l : List StoredCone) (acc : List (Int × Nat)) (k : Int) (v : Nat),
      (k, v) ∈ l.foldl (fun h c => bump h (jsGetHours off c.timestamp)) acc →
      (∃ v2, (k, v2) ∈ acc) ∨ ∃ c ∈ l, jsGetHours off c.timestamp = k := by
  intro l
  induction l with
  | nil => intro acc k v h; exact Or.inl ⟨v, h⟩
  | cons c rest ih =>
    intro acc k v h
    rw [List.foldl_cons] at h
    rcases ih _ k v h with ⟨v2, h2⟩ | ⟨c2, hc2, h2⟩
    · rcases bump_mem acc _ k v2 h2 with h3 | h3
      · exact Or.inr ⟨c, List.mem_cons_self _ _, h3.symm⟩
      · exact Or.inl h3
    · exact Or.inr ⟨c2, List.mem_cons_of_mem _ hc2, h2⟩

/-- Folding `bump` with a constant key over `l` starting from `[(9, n)]`
    yields `[(9, n + l.length)]`. -/
theorem foldl_bump_const (off : Int) :
    ∀ (l : List StoredCone) (n : Nat),
      (∀ c ∈ l, jsGetHours off c.timestamp = 9) →
      l.foldl (fun h c => bump h (jsGetHours off c.timestamp)) [(9, n)] =
        [(9, n + l.length)] := by
  intro l
  induction l with
  | nil => intro n _; rfl
  | cons c rest ih =>
    intro n hall
    rw [List.foldl_cons]
    rw [show bump [((9 : Int), n)] (jsGetHours off c.timestamp) = [(9, n + 1)] from by
      rw [hall c (List.mem_cons_self _ _)]
      simp [bump]]
    rw [ih (n + 1) (fun c2 hc2 => hall c2 (List.mem_cons_of_mem _ hc2))]
    simp only [List.length_cons]
    rw [show n + 1 + rest.length = n + (rest.length + 1) from by omega]

/-- **C7.** The `hourOfDay` histogram of `getAnalysis` is sparse: it maps a
    bucket key only if at least one of the owner's events has that local
    hour; and if the owner's events all have local hour 9, the result is
    exactly `{9 : N}` with no other keys. -/
theorem C7_hourOfDay_sparse (off : Int) (s : Store) (uid : String) :
    (∀ k v, (k, v) ∈ (getAnalysis off s uid).hourOfDay →
      ∃ c, c ∈ s.cones ∧ c.userId = uid ∧ jsGetHours off c.timestamp = k) ∧
    (s.cones.filter (fun c => c.userId == uid) ≠ [] →
      (∀ c ∈ s.cones, c.userId = uid → jsGetHours off c.timestamp = 9) →
      (getAnalysis off s uid).hourOfDay =
        [(9, (s.cones.filter (fun c => c.userId == uid)).length)]) := by
  constructor
  · intro k v h
    unfold getAnalysis at h
    rw [analysis_hourOfDay] at h
    rcases foldl_bump_keys off _ _ k v h with ⟨v2, h2⟩ | ⟨c, hc, hk⟩
    · cases h2
    · have hm := List.mem_filter.mp hc
      exact ⟨c, hm.1, by simpa using hm.2, hk⟩
  · intro hne hall
    unfold getAnalysis
    rw [analysis_hourOfDay]
    cases hfe : s.cones.filter (fun c => c.userId == uid) with
    | nil => exact absurd hfe hne
    | cons a l =>
      have hmemf : ∀ c ∈ s.cones.filter (fun c => c.userId == uid),
          jsGetHours off c.timestamp = 9 := by
        intro c hc
        have hm := List.mem_filter.mp hc
        exact hall c hm.1 (by simpa using hm.2)
      rw [hfe] at hmemf
      rw [List.foldl_cons]
      rw [show bump (TimeAnalysis.hourOfDay ⟨[], [], []⟩) (jsGetHours off a.timestamp) =
          [(9, 1)] from by
        rw [hmemf a (List.mem_cons_self _ _)]
        rfl]
      rw [foldl_bump_const off l 1 (fun c hc => hmemf c (List.mem_cons_of_mem _ hc))]
      simp only [List.length_cons]
      rw [show 1 + l.length = l.length + 1 from by omega]

/-- Witness for C7: two cones of `alice` at local hour 9 produce exactly
    `{9 : 2}`. -/
theorem C7_hourOfDay_sparse_witness :
    (getAnalysis 0
      ⟨[⟨0, "alice", 32400000, ⟨1970, 1, 1⟩, ⟨9, 0, 0⟩, "Thursday", "", 0, 0⟩,
        ⟨1, "alice", 32460000, ⟨1970, 1, 1⟩, ⟨9, 1, 0⟩, "Thursday", "", 0, 0⟩], 2⟩
      "alice").hourOfDay = [(9, 2)] := by
  have h := C7_hourOfDay_sparse 0
    ⟨[⟨0, "alice", 32400000, ⟨1970, 1, 1⟩, ⟨9, 0, 0⟩, "Thursday", "", 0, 0⟩,
      ⟨1, "alice", 32460000, ⟨1970, 1, 1⟩, ⟨9, 1, 0⟩, "Thursday", "", 0, 0⟩], 2⟩
    "alice"
  have h2 := h.2 (by decide) (by decide)
  rw [h2]
  rfl

/-- **C8 (counterexample).** The claim "every endpoint except a single
    public configuration-retrieval endpoint requires a valid bearer token"
    is false for this server: `GET /api/health` (and `GET
    /api/mobile-health`, and the static catch-all) are registered without
    the `authenticateUser` middleware yet are not the configuration
    endpoint. -/
theorem C8_counterexample :
    ¬ (∀ r ∈ apiRoutes, r.requiresAuth = true ∨ r.path = "/api/firebase-config") := by
  intro h
  have := h ⟨"GET", "/api/health", false⟩ (by decide)
  rcases this with h2 | h2
  · cases h2
  · exact absurd h2 (by decide)

/-- The unauthenticated routes of the server. -/
def publicPaths : List String :=
  ["/api/health", "/api/mobile-health", "/api/firebase-config", "*"]

/-- **C8 (amended).** Every registered route except the public health
    endpoints (`/api/health`, `/api/mobile-health`), the public Firebase
    configuration endpoint (`/api/firebase-config`) and the static
    catch-all (`*`) is guarded by `authenticateUser`, and a guarded request
    with a missing, malformed or unverifiable bearer token is answered 401
    with a machine-readable JSON `error` reason. -/
theorem C8_amended_public_endpoints :
    (∀ r ∈ apiRoutes, r.requiresAuth = true ∨ r.path ∈ publicPaths) ∧
    (∀ verify, authenticateUser none verify = .reject 401 "No token provided") ∧
    (∀ h verify, (h.take 7 == "Bearer ") = false →
      authenticateUser (some h) verify = .reject 401 "No token provided") ∧
    (∀ h verify, (h.take 7 == "Bearer ") = true → verify (h.drop 7) = none →
      authenticateUser (some h) verify = .reject 401 "Invalid token") := by
  refine ⟨by decide, fun verify => rfl, ?_, ?_⟩
  · intro h verify hfalse
    simp [authenticateUser, hfalse]
  · intro h verify htrue hnone
    simp [authenticateUser, htrue, hnone]

/-- Witness for the amended C8: a malformed header and a rejected token
    each get their 401. -/
theorem C8_amended_public_endpoints_witness :
    authenticateUser (some "Token abc") (fun _ => none) =
      .reject 401 "No token provided" ∧
    authenticateUser (some "Bearer abc") (fun _ => none) =
      .reject 401 "Invalid token" :=
  ⟨C8_amended_public_endpoints.2.2.1 "Token abc" (fun _ => none) (by decide),
   C8_amended_public_endpoints.2.2.2 "Bearer abc" (fun _ => none) (by decide) rfl⟩
